import Mathlib

/-!
A shallow embedding of the bank-statement CSV parser
(`src/utils/csvParser.ts`) and proofs of its specified properties.

Modelling conventions:
* JS strings are `List Char` (UTF-16 code units, here Lean `Char`s).
* JS numbers are modelled as exact rationals `ℚ`.
* JS `Date` values are modelled as integer day counts since 1970-01-01,
  in a UTC environment (the code reads dates from date-only ISO strings,
  which ECMAScript interprets as UTC midnight, and emits them through
  `toISOString` / `getUTC*`).  ECMAScript's `TimeClip` bounds time values
  to ±8.64e15 ms, i.e. day counts in `[minDay, maxDay]`; a day count
  outside that range stands for an Invalid Date, on which `toISOString`
  throws a `RangeError`.  `parseCSV` is the total function describing every
  non-throwing run; `parseCSVE` is the faithful variant that also models
  the one reachable throw site (`weekStart.toISOString()`).
* The nondeterministic `new Date()` (current time) is an explicit `now`
  parameter of `parseCSV`.
-/

namespace Finalyze

/-! ### JS string primitives -/

/-- Model of `String.prototype.trim`. -/
def jsTrim (s : List Char) : List Char :=
  ((s.dropWhile Char.isWhitespace).reverse.dropWhile Char.isWhitespace).reverse

/-- Model of `String.prototype.toLowerCase` (ASCII fragment). -/
def jsToLower (s : List Char) : List Char :=
  s.map Char.toLower

/-- Helper for `jsSplit`: accumulates the current chunk in reverse. -/
def jsSplitAux (sep : Char) : List Char → List Char → List (List Char)
  | [], acc => [acc.reverse]
  | c :: rest, acc =>
    if c = sep then acc.reverse :: jsSplitAux sep rest []
    else jsSplitAux sep rest (c :: acc)

/-- Model of `String.prototype.split` with a one-character separator. -/
def jsSplit (sep : Char) (s : List Char) : List (List Char) :=
  jsSplitAux sep s []

/-- Whether `p` occurs at the start of `s`. -/
def leadsWith : List Char → List Char → Bool
  | _, [] => true
  | [], _ :: _ => false
  | c :: cs, p :: ps => c = p && leadsWith cs ps

/-- Model of `String.prototype.includes` (substring containment). -/
def jsIncludes : List Char → List Char → Bool
  | [], need => leadsWith [] need
  | c :: t, need => leadsWith (c :: t) need || jsIncludes t need

/-- Helper for `jsIndexOf`, carrying the current index. -/
def jsIndexOfAux (x : List Char) : List (List Char) → Int → Int
  | [], _ => -1
  | y :: ys, i => if y = x then i else jsIndexOfAux x ys (i + 1)

/-- Model of `Array.prototype.indexOf` on string arrays: index of the first
occurrence of `x`, or `-1`. -/
def jsIndexOf (l : List (List Char)) (x : List Char) : Int :=
  jsIndexOfAux x l 0

/-- Helper for `jsFindIndex`, carrying the current index. -/
def jsFindIndexAux (p : List Char → Bool) : List (List Char) → Int → Int
  | [], _ => -1
  | y :: ys, i => if p y then i else jsFindIndexAux p ys (i + 1)

/-- Model of `Array.prototype.findIndex` on string arrays. -/
def jsFindIndex (p : List Char → Bool) (l : List (List Char)) : Int :=
  jsFindIndexAux p l 0

/-! ### Field tokenizer (`parseCSVLine`) -/

/-- The scan loop of `parseCSVLine`: one pass with an `inQuotes` flag and the
current field buffer.  A `"` inside quotes followed by another `"` emits a
literal quote and skips both; any other `"` toggles the flag; a `,` outside
quotes flushes the (trimmed) field; everything else is appended. -/
def parseCSVLineAux : List Char → Bool → List Char → List (List Char)
  | [], _, current => [jsTrim current]
  | '"' :: '"' :: rest, true, current => parseCSVLineAux rest true (current ++ ['"'])
  | '"' :: rest, inQuotes, current => parseCSVLineAux rest (!inQuotes) current
  | ',' :: rest, false, current => jsTrim current :: parseCSVLineAux rest false []
  | c :: rest, inQuotes, current => parseCSVLineAux rest inQuotes (current ++ [c])

/-- Function `parseCSVLine` from the source: split one CSV line into trimmed fields,
honouring double-quote escaping. -/
def parseCSVLine (line : List Char) : List (List Char) :=
  parseCSVLineAux line false []

/-! ### Numeric primitives -/

/-- Value of a digit string (most significant first). -/
def digitsToNat (ds : List Char) : Nat :=
  ds.foldl (fun n c => n * 10 + (c.toNat - 48)) 0

/-- Model of `parseFloat` on the plain decimal fragment the parser feeds it
(optional sign, digits, optional fraction; trailing garbage ignored;
`none` plays the role of `NaN`). -/
def jsParseFloat (s : List Char) : Option ℚ :=
  let sr : ℚ × List Char :=
    match s with
    | '-' :: r => (-1, r)
    | '+' :: r => (1, r)
    | r => (1, r)
  let ip := sr.2.takeWhile Char.isDigit
  let r1 := sr.2.dropWhile Char.isDigit
  let fp : List Char :=
    match r1 with
    | '.' :: r2 => r2.takeWhile Char.isDigit
    | _ => []
  if ip.isEmpty ∧ fp.isEmpty then none
  else some (sr.1 * ((digitsToNat ip : ℚ) + (digitsToNat fp : ℚ) / (10 : ℚ) ^ fp.length))

/-- Model of `Math.round`: round half toward positive infinity. -/
def jsRound (x : ℚ) : Int :=
  (x + 1 / 2).floor

/-- Rounding to two decimal places as the source does it:
`Math.round(x * 100) / 100`. -/
def round2 (x : ℚ) : ℚ :=
  (jsRound (x * 100) : ℚ) / 100

/-! ### Calendar arithmetic (model of the `Date` primitive, UTC) -/

/-- Gregorian leap-year test. -/
def isLeap (y : Int) : Bool :=
  y % 4 = 0 && (y % 100 ≠ 0 || y % 400 = 0)

/-- Number of days in month `m` (1–12) of year `y`. -/
def daysInMonth (y m : Int) : Int :=
  if m = 2 then (if isLeap y then 29 else 28)
  else if m = 4 ∨ m = 6 ∨ m = 9 ∨ m = 11 then 30
  else 31

/-- Days since 1970-01-01 of the civil date `y-m-d` (proleptic Gregorian). -/
def daysFromCivil (y m d : Int) : Int :=
  let y2 := if m ≤ 2 then y - 1 else y
  let era := Int.fdiv y2 400
  let yoe := y2 - era * 400
  let mp := if 2 < m then m - 3 else m + 9
  let doy := Int.fdiv (153 * mp + 2) 5 + d - 1
  let doe := yoe * 365 + Int.fdiv yoe 4 - Int.fdiv yoe 100 + doy
  era * 146097 + doe - 719468

/-- Civil date `(y, m, d)` of a day count since 1970-01-01. -/
def civilFromDays (z : Int) : Int × Int × Int :=
  let z2 := z + 719468
  let era := Int.fdiv z2 146097
  let doe := z2 - era * 146097
  let yoe := Int.fdiv (doe - Int.fdiv doe 1460 + Int.fdiv doe 36524 - Int.fdiv doe 146096) 365
  let y := yoe + era * 400
  let doy := doe - (365 * yoe + Int.fdiv yoe 4 - Int.fdiv yoe 100)
  let mp := Int.fdiv (5 * doy + 2) 153
  let d := doy - Int.fdiv (153 * mp + 2) 5 + 1
  let m := if mp < 10 then mp + 3 else mp - 9
  (if m ≤ 2 then y + 1 else y, m, d)

/-- Model of `Date.prototype.getDate` (day of month) in the UTC environment. -/
def getDate (z : Int) : Int :=
  (civilFromDays z).2.2

/-- Model of `Date.prototype.getDay`: 0 = Sunday … 6 = Saturday
(1970-01-01 was a Thursday). -/
def jsGetDay (z : Int) : Int :=
  (z + 4) % 7

/-- Smallest representable day count: ECMAScript `TimeClip` limits time
values to ±8.64e15 ms, i.e. ±100,000,000 days (`-271821-04-20`). -/
def minDay : Int := -100000000

/-- Largest representable day count (`+275760-09-13`). -/
def maxDay : Int := 100000000

/-- Whether a day count survives `TimeClip`, i.e. denotes a valid `Date`.
A day count outside this range stands for an Invalid Date (time value
`NaN`); `toISOString` on such a date throws a `RangeError`. -/
def jsDateValid (z : Int) : Bool :=
  decide (minDay ≤ z) && decide (z ≤ maxDay)

/-- Model of `Date.prototype.setDate`: keep the month, set the day of month
(with rollover for out-of-range values).  The result is the numeric day
count before `TimeClip`; validity (`jsDateValid`) is checked at the point
where the program observes the resulting `Date` (see `stepRowE`). -/
def jsSetDate (z n : Int) : Int :=
  z - getDate z + n

/-- Function `getWeekStart` from the source: shift a date back to the Monday starting
its week (`diff = getDate() - getDay() + (getDay() == 0 ? -6 : 1)`,
then `setDate(diff)`).  As with `jsSetDate`, the result is the numeric day
count; when it falls outside `jsDateValid` the engine's `Date` is Invalid
and the caller's `weekStart.toISOString()` throws (modelled in
`stepRowE`). -/
def getWeekStart (z : Int) : Int :=
  let day := jsGetDay z
  let diff := getDate z - day + (if day = 0 then -6 else 1)
  jsSetDate z diff

/-! ### Date parsing and formatting primitives -/

/-- Digits of a positive natural, most significant first (fuel-driven; the
fuel is an upper bound on the digit count, so `natToStr` always passes
enough). -/
def natDigitsAux : Nat → Nat → List Char → List Char
  | 0, _, acc => acc
  | _ + 1, 0, acc => acc
  | fuel + 1, n, acc => natDigitsAux fuel (n / 10) (Char.ofNat (48 + n % 10) :: acc)

/-- Decimal rendering of a natural number. -/
def natToStr (n : Nat) : List Char :=
  if n = 0 then ['0'] else natDigitsAux (n + 1) n []

/-- Decimal rendering of an integer (JS template-literal style). -/
def intToStr (i : Int) : List Char :=
  if i < 0 then '-' :: natToStr (-i).toNat else natToStr i.toNat

/-- Left-pad with a character to width `w` (JS `padStart`). -/
def padLeft (c : Char) (w : Nat) (s : List Char) : List Char :=
  List.replicate (w - s.length) c ++ s

/-- Two-digit zero-padded day/month component (`padStart(2, '0')`). -/
def pad2 (n : Int) : List Char :=
  padLeft '0' 2 (intToStr n)

/-- Model of `Date.prototype.toISOString().split('T')[0]`: the UTC calendar
day as `yyyy-mm-dd` (year zero-padded to four digits). -/
def isoDate (z : Int) : List Char :=
  let c := civilFromDays z
  (if c.1 < 0 then '-' :: padLeft '0' 6 (natToStr (-c.1).toNat)
   else padLeft '0' 4 (natToStr c.1.toNat)) ++ '-' :: pad2 c.2.1 ++ '-' :: pad2 c.2.2

/-- The daily-bucket key built in the source from `getUTCFullYear`,
`getUTCMonth`, `getUTCDate`: `` `${y}-${mm}-${dd}` `` (year unpadded). -/
def dayKey (z : Int) : List Char :=
  let c := civilFromDays z
  intToStr c.1 ++ '-' :: pad2 c.2.1 ++ '-' :: pad2 c.2.2

/-- The `en-US` short month names, as in the source's `monthNames` array. -/
def monthNamesShort : List (List Char) :=
  ["Jan".data, "Feb".data, "Mar".data, "Apr".data, "May".data, "Jun".data,
   "Jul".data, "Aug".data, "Sep".data, "Oct".data, "Nov".data, "Dec".data]

/-- The `en-US` long month names (used by `toLocaleString({month: 'long'})`). -/
def monthNamesLong : List (List Char) :=
  ["January".data, "February".data, "March".data, "April".data, "May".data,
   "June".data, "July".data, "August".data, "September".data, "October".data,
   "November".data, "December".data]

/-- Model of the ECMAScript date parser (`new Date(string)`) on the Date
Time String Format date-only forms reachable here: ISO `yyyy-mm-dd`
calendar dates and expanded-year `±yyyyyy-mm-dd` dates (both UTC midnight,
passed through `TimeClip`, with `-000000` rejected as the format requires),
plus the `"MonthName yyyy"` labels the monthly sort feeds back in.
Anything else — including the legacy, implementation-defined formats
outside the mandated grammar — is an invalid date (`none`, playing the
role of `NaN`). -/
def jsParseDate (s : List Char) : Option Int :=
  match s with
  | [sg, y1, y2, y3, y4, y5, y6, '-', m1, m2, '-', d1, d2] =>
    if ((sg = '+' ∨ sg = '-') ∧
        (y1.isDigit && y2.isDigit && y3.isDigit && y4.isDigit && y5.isDigit && y6.isDigit &&
         m1.isDigit && m2.isDigit && d1.isDigit && d2.isDigit) = true) then
      let yv : Int := digitsToNat [y1, y2, y3, y4, y5, y6]
      let y : Int := if sg = '-' then -yv else yv
      let m : Int := digitsToNat [m1, m2]
      let d : Int := digitsToNat [d1, d2]
      if sg = '-' ∧ yv = 0 then none
      else if 1 ≤ m ∧ m ≤ 12 ∧ 1 ≤ d ∧ d ≤ daysInMonth y m then
        if jsDateValid (daysFromCivil y m d) then some (daysFromCivil y m d) else none
      else none
    else none
  | [y1, y2, y3, y4, '-', m1, m2, '-', d1, d2] =>
    if (y1.isDigit && y2.isDigit && y3.isDigit && y4.isDigit &&
        m1.isDigit && m2.isDigit && d1.isDigit && d2.isDigit) then
      let y : Int := digitsToNat [y1, y2, y3, y4]
      let m : Int := digitsToNat [m1, m2]
      let d : Int := digitsToNat [d1, d2]
      if 1 ≤ m ∧ m ≤ 12 ∧ 1 ≤ d ∧ d ≤ daysInMonth y m then
        some (daysFromCivil y m d)
      else none
    else none
  | _ =>
    match jsSplit ' ' s with
    | [mon, [y1, y2, y3, y4]] =>
      if (y1.isDigit && y2.isDigit && y3.isDigit && y4.isDigit) then
        let i := jsIndexOf monthNamesLong mon
        if 0 ≤ i then some (daysFromCivil (digitsToNat [y1, y2, y3, y4]) (i + 1) 1)
        else none
      else none
    | _ => none

/-! ### Data model of the parser result -/

/-- Structure `ParsedTransaction` from the source. -/
structure ParsedTransaction where
  date : List Char
  description : List Char
  amount : ℚ
deriving DecidableEq

/-- The shape shared by `MonthlySpending`, `DailySpending` and
`WeeklySpending` in the source: a display name and a spending sum. -/
structure SpendingEntry where
  name : List Char
  spending : ℚ
deriving DecidableEq

/-- Structure `CSVParseResult` from the source. -/
structure CSVParseResult where
  transactions : List ParsedTransaction
  monthlySpending : List SpendingEntry
  dailySpending : List SpendingEntry
  weeklySpending : List SpendingEntry
  totalSpending : ℚ
  transactionCount : Nat
deriving DecidableEq

/-- The empty result returned for unusable documents. -/
def emptyResult : CSVParseResult :=
  ⟨[], [], [], [], 0, 0⟩

/-! ### Header resolver -/

/-- Whether one header cell matches any pattern of a role
(`header.toLowerCase().trim().includes(pattern.toLowerCase())`). -/
def headerMatches (patterns : List (List Char)) (h : List Char) : Bool :=
  patterns.any (fun p => jsIncludes (jsTrim (jsToLower h)) (jsToLower p))

/-- Function `findColumnIndex` from the source: scan headers in order, and for the
first header matching any pattern return `headers.indexOf(header)`;
`-1` if no header matches. -/
def findColumnIndex (headers patterns : List (List Char)) : Int :=
  match headers.find? (headerMatches patterns) with
  | some h => jsIndexOf headers h
  | none => -1

/-- Date-role synonym patterns from the source. -/
def datePatterns : List (List Char) :=
  ["date".data, "transaction date".data, "posted".data, "posted date".data]

/-- Amount-role pattern from the source. -/
def amountPatterns : List (List Char) :=
  ["amount".data]

/-- Description-role synonym patterns from the source. -/
def descPatterns : List (List Char) :=
  ["description".data, "name".data, "merchant".data, "payee".data, "details".data]

/-- Type-role synonym patterns from the source, in source order. -/
def typePatterns : List (List Char) :=
  ["type of transaction".data, "trans type".data, "transaction type".data,
   "type".data, "debit/credit".data, "dr/cr".data]

/-- The non-empty lines of the document
(`csvContent.split('\n').filter(line => line.trim())`). -/
def csvLines (s : List Char) : List (List Char) :=
  (jsSplit '\n' s).filter (fun l => !(jsTrim l).isEmpty)

/-- The tokenized header row (first non-empty line). -/
def docHeaders (s : List Char) : List (List Char) :=
  parseCSVLine ((csvLines s).headD [])

/-- Resolved date-column index of the document. -/
def docDateIdx (s : List Char) : Int :=
  findColumnIndex (docHeaders s) datePatterns

/-- Resolved amount-column index of the document. -/
def docAmountIdx (s : List Char) : Int :=
  findColumnIndex (docHeaders s) amountPatterns

/-- Resolved description-column index of the document. -/
def docDescIdx (s : List Char) : Int :=
  findColumnIndex (docHeaders s) descPatterns

/-- Resolved type-column index (`actualTypeColIndex`): the synonym scan,
falling back to a header whose lower-cased trimmed text is exactly
`transaction` when the scan found nothing. -/
def docTypeIdx (s : List Char) : Int :=
  let t := findColumnIndex (docHeaders s) typePatterns
  if t = -1 then
    jsFindIndex (fun h => jsTrim (jsToLower h) == "transaction".data) (docHeaders s)
  else t

/-! ### Row normalizer -/

/-- Field access `fields[i]` with JS out-of-range/undefined collapsing
to the empty string (via `?.` and `|| ''`). -/
def getField (fields : List (List Char)) (i : Int) : List Char :=
  if i < 0 then [] else fields.getD i.toNat []

/-- The tokenized fields of one (trimmed) data row. -/
def rowFields (line : List Char) : List (List Char) :=
  parseCSVLine (jsTrim line)

/-- The row's trimmed date field. -/
def rowDateStr (dIdx : Int) (line : List Char) : List Char :=
  jsTrim (getField (rowFields line) dIdx)

/-- The row's trimmed amount field. -/
def rowAmountStr (aIdx : Int) (line : List Char) : List Char :=
  jsTrim (getField (rowFields line) aIdx)

/-- The row's description (empty when the role is absent). -/
def rowDesc (dsIdx : Int) (line : List Char) : List Char :=
  if 0 ≤ dsIdx then jsTrim (getField (rowFields line) dsIdx) else []

/-- The row's type field, trimmed then lower-cased (empty when absent). -/
def rowTypeStr (tIdx : Int) (line : List Char) : List Char :=
  if 0 ≤ tIdx then jsToLower (jsTrim (getField (rowFields line) tIdx)) else []

/-- Amount cleanup `amountStr.replace(/[$,]/g, '').trim()`. -/
def cleanAmount (s : List Char) : List Char :=
  jsTrim (s.filter (fun c => !(c = '$' || c = ',')))

/-- The row's parsed amount (`none` models `NaN`). -/
def rowAmount (aIdx : Int) (line : List Char) : Option ℚ :=
  jsParseFloat (cleanAmount (rowAmountStr aIdx line))

/-- The loop body of `parseCSV` up to constructing a transaction: either a
transaction together with its (day-count) date, or `none` when the row is
discarded.  Mirrors the source's check order: empty line, field count,
amount parse, type filter, absolute value, date parse (with the `new Date()`
fallback for an empty date field). -/
def processRow (dIdx aIdx dsIdx tIdx now : Int) (line : List Char) : Option (ParsedTransaction × Int) :=
  if (jsTrim line).isEmpty then none
  else if ((rowFields line).length : Int) ≤ max dIdx aIdx then none
  else
    match rowAmount aIdx line with
    | none => none
    | some amount =>
      if 0 ≤ tIdx ∧ rowTypeStr tIdx line ≠ "debit".data then none
      else
        -- `spendingAmount = Math.abs(amount)`, inlined
        if (rowDateStr dIdx line).isEmpty then
          some (⟨isoDate now, rowDesc dsIdx line, |amount|⟩, now)
        else
          match jsParseDate (rowDateStr dIdx line) with
          | none => none
          | some z => some (⟨isoDate z, rowDesc dsIdx line, |amount|⟩, z)

/-! ### Aggregator -/

/-- The mutable accumulators of the parse loop. -/
structure ParseState where
  transactions : List ParsedTransaction
  monthlyMap : List (List Char × ℚ)
  dailyMap : List (List Char × ℚ)
  weeklyMap : List (List Char × ℚ × Int)
  total : ℚ
deriving DecidableEq

/-- Fresh accumulators. -/
def initState : ParseState :=
  ⟨[], [], [], [], 0⟩

/-- Update `map.set(k, (map.get(k) || 0) + v)` on an insertion-ordered map. -/
def mapAdd : List (List Char × ℚ) → List Char → ℚ → List (List Char × ℚ)
  | [], k, v => [(k, v)]
  | (k', v') :: rest, k, v =>
    if k' = k then (k', v' + v) :: rest else (k', v') :: mapAdd rest k v

/-- The weekly-map update: create `{spending: 0, startDate}` when absent,
then add to `spending` in place. -/
def weeklyAdd : List (List Char × ℚ × Int) → List Char → Int → ℚ → List (List Char × ℚ × Int)
  | [], k, st, v => [(k, v, st)]
  | (k', v', st') :: rest, k, st, v =>
    if k' = k then (k', v' + v, st') :: rest else (k', v', st') :: weeklyAdd rest k st v

/-- The monthly-bucket key: `toLocaleString('en-US', {year: 'numeric',
month: 'long'})`, i.e. `"March 2024"`. -/
def monthKey (z : Int) : List Char :=
  let c := civilFromDays z
  (monthNamesLong.getD (c.2.1 - 1).toNat []) ++ ' ' :: intToStr c.1

/-- One iteration of the parse loop over a data line. -/
def stepRow (dIdx aIdx dsIdx tIdx now : Int) (s : ParseState) (line : List Char) : ParseState :=
  match processRow dIdx aIdx dsIdx tIdx now line with
  | none => s
  | some (t, z) =>
    { transactions := s.transactions ++ [t]
      monthlyMap := mapAdd s.monthlyMap (monthKey z) t.amount
      dailyMap := mapAdd s.dailyMap (dayKey z) t.amount
      weeklyMap := weeklyAdd s.weeklyMap (isoDate (getWeekStart z)) (getWeekStart z) t.amount
      total := s.total + t.amount }

/-- The whole parse loop over the data lines. -/
def runRows (dIdx aIdx dsIdx tIdx now : Int) (rows : List (List Char)) : ParseState :=
  rows.foldl (stepRow dIdx aIdx dsIdx tIdx now) initState

/-! ### Result assembler -/

/-- Stable insertion into a list ordered by a boolean comparator. -/
def insertLe {α : Type} (le : α → α → Bool) (x : α) : List α → List α
  | [] => [x]
  | y :: ys => if le x y then x :: y :: ys else y :: insertLe le x ys

/-- Insertion sort by a boolean comparator (model of `Array.prototype.sort`,
which only matters up to the ordering the comparator induces). -/
def sortByLe {α : Type} (le : α → α → Bool) : List α → List α
  | [] => []
  | x :: xs => insertLe le x (sortByLe le xs)

/-- The time value used to sort monthly buckets: `new Date(name).getTime()`
on the `"MonthName yyyy"` label (invalid dates collapse to 0). -/
def monthTime (name : List Char) : Int :=
  (jsParseDate name).getD 0

/-- The `en-US` short date (`"Mar 4"`), as `toLocaleDateString` renders it. -/
def localeShortDate (z : Int) : List Char :=
  let c := civilFromDays z
  (monthNamesShort.getD (c.2.1 - 1).toNat []) ++ ' ' :: intToStr c.2.2

/-- The daily display label: re-parse the `yyyy-mm-dd` key and render
`"{ShortMonth} {Day}"` (an unparsable key renders as JS would render
`undefined`/`NaN` interpolation). -/
def dailyLabel (k : List Char) : List Char :=
  match jsParseDate k with
  | some z => localeShortDate z
  | none => "undefined NaN".data

/-- The weekly display label `"{ShortMonth} {Day} - {EndDay}"` where the end
day is `getDate()` of the week start shifted 6 days. -/
def weeklyLabel (start : Int) : List Char :=
  localeShortDate start ++ " - ".data ++ intToStr (getDate (start + 6))

/-- Lexicographic code-unit comparison of strings
(`localeCompare` on zero-padded ISO keys). -/
def lexLe : List Char → List Char → Bool
  | [], _ => true
  | _ :: _, [] => false
  | a :: as, b :: bs =>
    if a.toNat < b.toNat then true
    else if b.toNat < a.toNat then false
    else lexLe as bs

/-- The result assembler: sort each bucket map and attach display labels,
round the grand total to two decimals, count the transactions. -/
def assemble (st : ParseState) : CSVParseResult :=
  { transactions := st.transactions
    monthlySpending :=
      sortByLe (fun a b => decide (monthTime a.name ≤ monthTime b.name))
        (st.monthlyMap.map (fun p => ⟨p.1, p.2⟩))
    dailySpending :=
      (sortByLe (fun a b => lexLe a.1 b.1) st.dailyMap).map
        (fun p => ⟨dailyLabel p.1, p.2⟩)
    weeklySpending :=
      (sortByLe (fun a b => decide (a.2.2 ≤ b.2.2)) st.weeklyMap).map
        (fun p => ⟨weeklyLabel p.2.2, p.2.1⟩)
    totalSpending := round2 st.total
    transactionCount := st.transactions.length }

/-- Function `parseCSV` from the source.  `now` is the day `new Date()` would report
(the only environment input). -/
def parseCSV (now : Int) (csvContent : List Char) : CSVParseResult :=
  if (csvLines csvContent).length < 2 then emptyResult
  else if docDateIdx csvContent = -1 ∨ docAmountIdx csvContent = -1 then emptyResult
  else
    assemble (runRows (docDateIdx csvContent) (docAmountIdx csvContent)
      (docDescIdx csvContent) (docTypeIdx csvContent) now ((csvLines csvContent).drop 1))

/-! ### The faithful, exception-aware parse

`parseCSV` above is total and describes every run that returns normally.
The program, however, has one reachable throw site: for a surviving row
whose date lies within six days of the minimum time value, `getWeekStart`'s
`setDate` is clipped past the minimum, the resulting `Date` is Invalid, and
`weekStart.toISOString()` (csvParser.ts line 255) throws
`RangeError: Invalid time value`.  The `E`-suffixed functions model exactly
that behaviour; `parseCSVE_ok_eq` below shows they agree with the total
versions whenever no throw occurs. -/

/-- The message of the `RangeError` thrown by `toISOString` on an Invalid
Date. -/
def rangeErrorMsg : List Char :=
  "RangeError: Invalid time value".data

/-- One iteration of the parse loop, with the throw modelled: as `stepRow`,
except that when the computed week start fails `TimeClip` (`jsDateValid`),
`weekStart.toISOString()` throws instead of producing the weekly key.
(The other `toISOString` call, on the transaction date itself, cannot
throw: a parsed date is range-checked by `jsParseDate`, and the `now`
fallback is the engine clock, always in range.) -/
def stepRowE (dIdx aIdx dsIdx tIdx now : Int) (s : ParseState) (line : List Char) :
    Except (List Char) ParseState :=
  match processRow dIdx aIdx dsIdx tIdx now line with
  | none => .ok s
  | some (_, z) =>
    if jsDateValid (getWeekStart z) then .ok (stepRow dIdx aIdx dsIdx tIdx now s line)
    else .error rangeErrorMsg

/-- The parse loop with the throw modelled: an exception aborts the
remaining rows and propagates. -/
def runRowsEAux (dIdx aIdx dsIdx tIdx now : Int) :
    ParseState → List (List Char) → Except (List Char) ParseState
  | st, [] => .ok st
  | st, r :: rs =>
    match stepRowE dIdx aIdx dsIdx tIdx now st r with
    | .error e => .error e
    | .ok st2 => runRowsEAux dIdx aIdx dsIdx tIdx now st2 rs

/-- The whole parse loop with the throw modelled. -/
def runRowsE (dIdx aIdx dsIdx tIdx now : Int) (rows : List (List Char)) :
    Except (List Char) ParseState :=
  runRowsEAux dIdx aIdx dsIdx tIdx now initState rows

/-- Function `parseCSV` from the source with its exception behaviour
modelled faithfully: `.error` is a thrown `RangeError` escaping the call,
`.ok` a normal return. -/
def parseCSVE (now : Int) (csvContent : List Char) : Except (List Char) CSVParseResult :=
  if (csvLines csvContent).length < 2 then .ok emptyResult
  else if docDateIdx csvContent = -1 ∨ docAmountIdx csvContent = -1 then .ok emptyResult
  else
    match runRowsE (docDateIdx csvContent) (docAmountIdx csvContent)
      (docDescIdx csvContent) (docTypeIdx csvContent) now ((csvLines csvContent).drop 1) with
    | .error e => .error e
    | .ok st => .ok (assemble st)

/-! ### Summation helpers and the accumulation invariant -/

/-- Sum of a rational-valued projection over a list. -/
def sumBy {α : Type} (f : α → ℚ) (l : List α) : ℚ :=
  (l.map f).sum

/-- Sum of `amount` over a transaction list. -/
def sumAmounts (l : List ParsedTransaction) : ℚ :=
  sumBy (fun t => t.amount) l

/-- Sum of `spending` over a bucket list. -/
def sumSpending (l : List SpendingEntry) : ℚ :=
  sumBy (fun e => e.spending) l

/-- Total of an insertion-ordered monthly/daily map. -/
def mapTotal (m : List (List Char × ℚ)) : ℚ :=
  sumBy (fun p => p.2) m

/-- Total of the weekly map. -/
def weeklyTotal (m : List (List Char × ℚ × Int)) : ℚ :=
  sumBy (fun p => p.2.1) m

/-- The accumulation invariant: the running total agrees with the transaction
sum and with every bucket map's total. -/
def stInv (s : ParseState) : Prop :=
  sumAmounts s.transactions = s.total ∧
  mapTotal s.monthlyMap = s.total ∧
  mapTotal s.dailyMap = s.total ∧
  weeklyTotal s.weeklyMap = s.total

/-- The row-level checks that precede the date step, in source order:
non-empty line, enough fields for the date/amount indices, parseable
amount, and the debit filter (vacuous when no type column is resolved). -/
def rowPassesPreDate (dIdx aIdx tIdx : Int) (line : List Char) : Bool :=
  !(jsTrim line).isEmpty &&
  decide (max dIdx aIdx < ((rowFields line).length : Int)) &&
  (rowAmount aIdx line).isSome &&
  (decide (tIdx < 0) || rowTypeStr tIdx line == "debit".data)

/-- Doubling every quote, the escaping step of §8's reference writer. -/
def escapeQuotes : List Char → List Char
  | [] => []
  | c :: r => if c = '"' then '"' :: '"' :: escapeQuotes r else c :: escapeQuotes r

/-- Modelled from the spec: the reference CSV writer of the round-trip
property — wrap the field in double quotes after doubling every embedded
quote.  (No such writer exists in the repository; the spec defines it.) -/
def csvEncode (v : List Char) : List Char :=
  '"' :: (escapeQuotes v ++ ['"'])

/-- The non-negativity invariant on the accumulators. -/
def stNonNeg (s : ParseState) : Prop :=
  (∀ t ∈ s.transactions, 0 ≤ t.amount) ∧
  (∀ p ∈ s.monthlyMap, 0 ≤ p.2) ∧
  (∀ p ∈ s.dailyMap, 0 ≤ p.2) ∧
  (∀ p ∈ s.weeklyMap, 0 ≤ p.2.1)

theorem sumBy_nil {α : Type} (f : α → ℚ) : sumBy f [] = 0 := rfl

theorem sumBy_cons {α : Type} (f : α → ℚ) (x : α) (l : List α) :
    sumBy f (x :: l) = f x + sumBy f l := by
  simp [sumBy]

theorem sumBy_append {α : Type} (f : α → ℚ) (l₁ l₂ : List α) :
    sumBy f (l₁ ++ l₂) = sumBy f l₁ + sumBy f l₂ := by
  simp [sumBy]

theorem sumBy_insertLe {α : Type} (f : α → ℚ) (le : α → α → Bool) (x : α) (l : List α) :
    sumBy f (insertLe le x l) = f x + sumBy f l := by
  induction l with
  | nil => simp [insertLe, sumBy]
  | cons y ys ih =>
    simp only [insertLe]
    split
    · rfl
    · rw [sumBy_cons, ih, sumBy_cons]; ring

theorem sumBy_sortByLe {α : Type} (f : α → ℚ) (le : α → α → Bool) (l : List α) :
    sumBy f (sortByLe le l) = sumBy f l := by
  induction l with
  | nil => rfl
  | cons x xs ih => rw [sortByLe, sumBy_insertLe, ih, sumBy_cons]

theorem sumBy_map {α β : Type} (f : β → ℚ) (g : α → β) (l : List α) :
    sumBy f (l.map g) = sumBy (fun a => f (g a)) l := by
  simp only [sumBy, List.map_map]
  rfl

theorem mapAdd_total (m : List (List Char × ℚ)) (k : List Char) (v : ℚ) :
    mapTotal (mapAdd m k v) = mapTotal m + v := by
  induction m with
  | nil => simp [mapAdd, mapTotal, sumBy]
  | cons p rest ih =>
    simp only [mapAdd]
    split
    · simp only [mapTotal, sumBy_cons]; ring
    · simp only [mapTotal, sumBy_cons] at ih ⊢; rw [ih]; ring

theorem weeklyAdd_total (m : List (List Char × ℚ × Int)) (k : List Char) (st : Int) (v : ℚ) :
    weeklyTotal (weeklyAdd m k st v) = weeklyTotal m + v := by
  induction m with
  | nil => simp [weeklyAdd, weeklyTotal, sumBy]
  | cons p rest ih =>
    simp only [weeklyAdd]
    split
    · simp only [weeklyTotal, sumBy_cons]; ring
    · simp only [weeklyTotal, sumBy_cons] at ih ⊢; rw [ih]; ring

theorem stepRow_inv (dIdx aIdx dsIdx tIdx now : Int) (s : ParseState) (line : List Char)
    (h : stInv s) : stInv (stepRow dIdx aIdx dsIdx tIdx now s line) := by
  unfold stepRow
  cases hp : processRow dIdx aIdx dsIdx tIdx now line with
  | none => exact h
  | some tz =>
    obtain ⟨h1, h2, h3, h4⟩ := h
    refine ⟨?_, ?_, ?_, ?_⟩
    · simp only [sumAmounts] at h1 ⊢
      rw [sumBy_append, h1, sumBy_cons, sumBy_nil]; ring
    · rw [mapAdd_total, h2]
    · rw [mapAdd_total, h3]
    · rw [weeklyAdd_total, h4]

theorem foldl_stepRow_inv (dIdx aIdx dsIdx tIdx now : Int) (rows : List (List Char))
    (s : ParseState) (h : stInv s) :
    stInv (rows.foldl (stepRow dIdx aIdx dsIdx tIdx now) s) := by
  induction rows generalizing s with
  | nil => exact h
  | cons r rs ih =>
    exact ih _ (stepRow_inv dIdx aIdx dsIdx tIdx now s r h)

theorem runRows_inv (dIdx aIdx dsIdx tIdx now : Int) (rows : List (List Char)) :
    stInv (runRows dIdx aIdx dsIdx tIdx now rows) :=
  foldl_stepRow_inv dIdx aIdx dsIdx tIdx now rows initState
    ⟨rfl, rfl, rfl, rfl⟩

theorem round2_zero : round2 0 = 0 := by
  with_unfolding_all decide

/-! ### C1: the grand total is the transaction sum rounded once -/

/-- C1: for every input, `totalSpending` equals the sum of `amount` over the
result's `transactions`, rounded to 2 decimal places after summation. -/
theorem c1_totalSpending_is_rounded_sum (now : Int) (s : List Char) :
    (parseCSV now s).totalSpending = round2 (sumAmounts (parseCSV now s).transactions) := by
  unfold parseCSV
  split
  · simp [emptyResult, sumAmounts, sumBy, round2_zero]
  · split
    · simp [emptyResult, sumAmounts, sumBy, round2_zero]
    · have h := runRows_inv (docDateIdx s) (docAmountIdx s) (docDescIdx s) (docTypeIdx s)
        now ((csvLines s).drop 1)
      simp only [assemble]
      rw [h.1]

/-! ### C2: bucket sums versus the grand total -/

theorem assemble_sums (st : ParseState) :
    sumSpending (assemble st).monthlySpending = mapTotal st.monthlyMap ∧
    sumSpending (assemble st).dailySpending = mapTotal st.dailyMap ∧
    sumSpending (assemble st).weeklySpending = weeklyTotal st.weeklyMap := by
  refine ⟨?_, ?_, ?_⟩ <;>
    simp only [assemble, sumSpending, sumBy_sortByLe, sumBy_map, mapTotal, weeklyTotal]

/-- C2 as stated is false: `totalSpending` is rounded to 2 decimals but the
bucket sums are not.  On `Date,Amount\n2024-01-05,0.005` the single monthly
bucket holds `0.005` while `totalSpending` is `0.01`. -/
theorem c2_counterexample :
    sumSpending ((parseCSV 0 ("Date,Amount\n2024-01-05,0.005".data)).monthlySpending) ≠
      (parseCSV 0 ("Date,Amount\n2024-01-05,0.005".data)).totalSpending := by
  with_unfolding_all decide

/-- C2 (amended): for every input, the sum of `spending` over each of
`monthlySpending`, `dailySpending` and `weeklySpending`, rounded to
2 decimal places, equals `totalSpending` — the three bucketings partition
the same (pre-rounding) total. -/
theorem c2_bucket_sums_round_to_total (now : Int) (s : List Char) :
    round2 (sumSpending (parseCSV now s).monthlySpending) = (parseCSV now s).totalSpending ∧
    round2 (sumSpending (parseCSV now s).dailySpending) = (parseCSV now s).totalSpending ∧
    round2 (sumSpending (parseCSV now s).weeklySpending) = (parseCSV now s).totalSpending := by
  unfold parseCSV
  split
  · exact ⟨round2_zero, round2_zero, round2_zero⟩
  · split
    · exact ⟨round2_zero, round2_zero, round2_zero⟩
    · have hinv := runRows_inv (docDateIdx s) (docAmountIdx s) (docDescIdx s) (docTypeIdx s)
        now ((csvLines s).drop 1)
      have hs := assemble_sums (runRows (docDateIdx s) (docAmountIdx s) (docDescIdx s)
        (docTypeIdx s) now ((csvLines s).drop 1))
      refine ⟨?_, ?_, ?_⟩
      · rw [hs.1, hinv.2.1]; rfl
      · rw [hs.2.1, hinv.2.2.1]; rfl
      · rw [hs.2.2, hinv.2.2.2]; rfl

/-! ### C3: the reachable `RangeError` -/

theorem stepRowE_ok_eq (dIdx aIdx dsIdx tIdx now : Int) (s s2 : ParseState) (line : List Char)
    (h : stepRowE dIdx aIdx dsIdx tIdx now s line = .ok s2) :
    stepRow dIdx aIdx dsIdx tIdx now s line = s2 := by
  unfold stepRowE at h
  split at h
  · rename_i hp
    simp only [Except.ok.injEq] at h
    unfold stepRow
    rw [hp]
    exact h
  · split at h
    · simp only [Except.ok.injEq] at h
      exact h
    · exact absurd h (by simp)

theorem runRowsEAux_ok_eq (dIdx aIdx dsIdx tIdx now : Int) :
    ∀ (rows : List (List Char)) (st st2 : ParseState),
      runRowsEAux dIdx aIdx dsIdx tIdx now st rows = .ok st2 →
      rows.foldl (stepRow dIdx aIdx dsIdx tIdx now) st = st2 := by
  intro rows
  induction rows with
  | nil =>
    intro st st2 h
    unfold runRowsEAux at h
    simp only [Except.ok.injEq] at h
    exact h
  | cons r rs ih =>
    intro st st2 h
    unfold runRowsEAux at h
    split at h
    · exact absurd h (by simp)
    · rename_i st1 hs
      rw [List.foldl_cons, stepRowE_ok_eq dIdx aIdx dsIdx tIdx now st st1 r hs]
      exact ih st1 st2 h

/-- On every run that returns normally, the exception-aware parse and the
total model agree — the total `parseCSV` is exactly the non-throwing
behaviour of the program. -/
theorem parseCSVE_ok_eq (now : Int) (s : List Char) (r : CSVParseResult)
    (h : parseCSVE now s = .ok r) : parseCSV now s = r := by
  unfold parseCSVE at h
  unfold parseCSV
  split at h
  · rename_i h1
    rw [if_pos h1]
    simp only [Except.ok.injEq] at h
    exact h
  · rename_i h1
    split at h
    · rename_i h2
      rw [if_neg h1, if_pos h2]
      simp only [Except.ok.injEq] at h
      exact h
    · rename_i h2
      rw [if_neg h1, if_neg h2]
      split at h
      · exact absurd h (by simp)
      · rename_i st hs
        have hr : runRows (docDateIdx s) (docAmountIdx s) (docDescIdx s) (docTypeIdx s)
            now ((csvLines s).drop 1) = st :=
          runRowsEAux_ok_eq (docDateIdx s) (docAmountIdx s) (docDescIdx s) (docTypeIdx s)
            now ((csvLines s).drop 1) initState st hs
        rw [hr]
        simp only [Except.ok.injEq] at h
        exact h

/-- C3 fails on the code: `parseCSV` does have a reachable throw.  The
expanded-year ISO date `-271821-04-22` is valid (two days above the minimum
time value) and falls on a Thursday, so `getWeekStart`'s `setDate(19)`
lands one day below the minimum; `TimeClip` makes the week start an
Invalid Date and `weekStart.toISOString()` throws
`RangeError: Invalid time value` instead of returning a `ParseResult`. -/
theorem c3_range_error_reachable :
    parseCSVE 0 ("Date,Amount\n-271821-04-22,5".data) = .error rangeErrorMsg ∧
    jsParseDate ("-271821-04-22".data) = some (minDay + 2) ∧
    jsGetDay (minDay + 2) = 4 ∧
    getWeekStart (minDay + 2) = minDay - 1 ∧
    jsDateValid (minDay - 1) = false :=
  ⟨by with_unfolding_all rfl, by decide⟩

/-! ### C4: structural failures return the empty result -/

/-- C4: a document with fewer than 2 non-empty lines, or whose header
resolves no date column or no amount column, yields the empty
`CSVParseResult` (no exception path exists). -/
theorem c4_empty_result_for_unusable (now : Int) (s : List Char)
    (h : (csvLines s).length < 2 ∨ docDateIdx s = -1 ∨ docAmountIdx s = -1) :
    parseCSV now s = emptyResult := by
  unfold parseCSV
  split
  · rfl
  · split
    · rfl
    · rename_i h1 h2
      rcases h with h | h
      · exact absurd h h1
      · exact absurd h h2

theorem c4_witness :
    ((csvLines ("Foo,Bar\nx,y".data)).length < 2 ∨
      docDateIdx ("Foo,Bar\nx,y".data) = -1 ∨
      docAmountIdx ("Foo,Bar\nx,y".data) = -1) ∧
    parseCSV 0 ("Foo,Bar\nx,y".data) = emptyResult :=
  ⟨by with_unfolding_all decide,
   c4_empty_result_for_unusable 0 ("Foo,Bar\nx,y".data) (by with_unfolding_all decide)⟩

/-! ### C5: the debit-only type filter -/

theorem processRow_none_of_type (dIdx aIdx dsIdx tIdx now : Int) (line : List Char)
    (ht : 0 ≤ tIdx) (hne : rowTypeStr tIdx line ≠ "debit".data) :
    processRow dIdx aIdx dsIdx tIdx now line = none := by
  unfold processRow
  split
  · rfl
  · split
    · rfl
    · split
      · rfl
      · rw [if_pos ⟨ht, hne⟩]

theorem processRow_isSome (dIdx aIdx dsIdx now : Int) (line : List Char)
    (hp : rowPassesPreDate dIdx aIdx (-1) line = true)
    (hd : (rowDateStr dIdx line).isEmpty = false)
    (hj : (jsParseDate (rowDateStr dIdx line)).isSome = true) :
    (processRow dIdx aIdx dsIdx (-1) now line).isSome = true := by
  simp only [rowPassesPreDate, Bool.and_eq_true, Bool.or_eq_true, decide_eq_true_eq,
    Bool.not_eq_true', beq_iff_eq] at hp
  obtain ⟨⟨⟨h1, h2⟩, h3⟩, _⟩ := hp
  obtain ⟨a, ha⟩ := Option.isSome_iff_exists.mp h3
  obtain ⟨z, hz⟩ := Option.isSome_iff_exists.mp hj
  unfold processRow
  rw [if_neg (by simp [h1]), if_neg (not_le.mpr h2), ha]
  simp only [hd, hz]
  rw [if_neg (fun hcon => by omega)]
  simp [hd, hz]

/-- C5: when a type column is resolved and the row's lower-cased trimmed
type field is not exactly `debit`, the row leaves the whole parse state
unchanged (so it contributes to no output of `parseCSV`); when no type
column is resolved (index `-1`), a row passing the other row checks with a
parseable, non-empty date is turned into a transaction. -/
theorem c5_type_filter (dIdx aIdx dsIdx tIdx now : Int) (st : ParseState) (line : List Char) :
    (0 ≤ tIdx → rowTypeStr tIdx line ≠ "debit".data →
      stepRow dIdx aIdx dsIdx tIdx now st line = st) ∧
    (rowPassesPreDate dIdx aIdx (-1) line = true →
      (rowDateStr dIdx line).isEmpty = false →
      (jsParseDate (rowDateStr dIdx line)).isSome = true →
      (stepRow dIdx aIdx dsIdx (-1) now st line).transactions.length =
        st.transactions.length + 1) := by
  constructor
  · intro ht hne
    unfold stepRow
    rw [processRow_none_of_type dIdx aIdx dsIdx tIdx now line ht hne]
  · intro hp hd hj
    have hs := processRow_isSome dIdx aIdx dsIdx now line hp hd hj
    obtain ⟨tz, htz⟩ := Option.isSome_iff_exists.mp hs
    unfold stepRow
    rw [htz]
    simp

theorem c5_witness :
    ((0 : Int) ≤ 3 ∧
      rowTypeStr 3 ("2024-02-02,Refund,30.00,credit".data) ≠ "debit".data ∧
      stepRow 0 2 1 3 0 initState ("2024-02-02,Refund,30.00,credit".data) = initState) ∧
    (rowPassesPreDate 0 2 (-1) ("2024-02-02,Refund,30.00,credit".data) = true ∧
      (stepRow 0 2 1 (-1) 0 initState
        ("2024-02-02,Refund,30.00,credit".data)).transactions.length =
        initState.transactions.length + 1) :=
  ⟨⟨by with_unfolding_all decide, by with_unfolding_all decide,
    (c5_type_filter 0 2 1 3 0 initState ("2024-02-02,Refund,30.00,credit".data)).1
      (by with_unfolding_all decide) (by with_unfolding_all decide)⟩,
   ⟨by with_unfolding_all decide,
    (c5_type_filter 0 2 1 (-1) 0 initState ("2024-02-02,Refund,30.00,credit".data)).2
      (by with_unfolding_all decide) (by with_unfolding_all decide)
      (by with_unfolding_all decide)⟩⟩

/-! ### C6: header resolution priority -/

theorem jsIndexOfAux_eq_findIndexAux (p : List Char → Bool) (x : List Char) :
    ∀ l : List (List Char), l.find? p = some x →
      ∀ i : Int, jsIndexOfAux x l i = jsFindIndexAux p l i := by
  intro l
  induction l with
  | nil => intro hfind; simp at hfind
  | cons h t ih =>
    intro hfind i
    cases hph : p h with
    | true =>
      rw [List.find?_cons_of_pos _ hph] at hfind
      injection hfind with hx
      subst hx
      simp [jsIndexOfAux, jsFindIndexAux, hph]
    | false =>
      rw [List.find?_cons_of_neg _ (by simp [hph])] at hfind
      have hpx : p x = true := List.find?_some hfind
      have hne : h ≠ x := fun he => by simp [he, hpx] at hph
      simp only [jsIndexOfAux, jsFindIndexAux, if_neg hne, hph,
        Bool.false_eq_true, if_false]
      exact ih hfind (i + 1)

theorem jsFindIndexAux_of_none (p : List Char → Bool) :
    ∀ l : List (List Char), l.find? p = none →
      ∀ i : Int, jsFindIndexAux p l i = -1 := by
  intro l
  induction l with
  | nil => intro _ _; rfl
  | cons h t ih =>
    intro hfind i
    rw [List.find?_eq_none] at hfind
    have hph : p h = false := by simpa using hfind h (by simp)
    simp only [jsFindIndexAux, hph, Bool.false_eq_true, if_false]
    exact ih (List.find?_eq_none.mpr fun a hat => hfind a (by simp [hat])) (i + 1)

/-- C6 as stated is false: the resolver's outer loop runs over header cells,
not over the synonym list, so a header matching only the generic `type`
that appears to the left of a more specific label wins.  With headers
`["Type", "Transaction Type"]` the claim picks index 1; the code returns 0. -/
theorem c6_counterexample :
    findColumnIndex ["Type".data, "Transaction Type".data] typePatterns ≠ 1 ∧
    findColumnIndex ["Type".data, "Transaction Type".data] typePatterns = 0 := by
  with_unfolding_all decide

/-- C6 (amended): `findColumnIndex` scans header cells left to right and
returns the index of the first header containing any synonym of the role as
a substring — the order of the synonym list carries no cross-column
priority.  The exact-`transaction` fallback is consulted only when no
header matched any type synonym. -/
theorem c6_header_major_priority (headers patterns : List (List Char)) (s : List Char) :
    findColumnIndex headers patterns = jsFindIndex (headerMatches patterns) headers ∧
    docTypeIdx s =
      (if findColumnIndex (docHeaders s) typePatterns = -1 then
        jsFindIndex (fun h => jsTrim (jsToLower h) == "transaction".data) (docHeaders s)
      else findColumnIndex (docHeaders s) typePatterns) := by
  constructor
  · unfold findColumnIndex jsFindIndex
    cases hf : headers.find? (headerMatches patterns) with
    | none => exact (jsFindIndexAux_of_none _ headers hf 0).symm
    | some x => exact jsIndexOfAux_eq_findIndexAux _ x headers hf 0
  · rfl

/-! ### C7: tokenizer round-trip for the reference writer -/

theorem parseCSVLineAux_quote_quote (rest acc : List Char) :
    parseCSVLineAux ('"' :: '"' :: rest) true acc =
      parseCSVLineAux rest true (acc ++ ['"']) := rfl

theorem parseCSVLineAux_close (acc : List Char) :
    parseCSVLineAux ['"'] true acc = [jsTrim acc] := rfl

theorem parseCSVLineAux_other (c : Char) (hc : c ≠ '"') (rest acc : List Char) :
    parseCSVLineAux (c :: rest) true acc = parseCSVLineAux rest true (acc ++ [c]) := by
  rw [parseCSVLineAux.eq_def]
  split <;> simp_all

theorem parseCSVLineAux_openQuote (rest acc : List Char) :
    parseCSVLineAux ('"' :: rest) false acc = parseCSVLineAux rest true acc := by
  rw [parseCSVLineAux.eq_def]
  split
  all_goals try simp_all
  rename_i hne heq hcomma
  exact absurd heq.1.symm hne

theorem parseCSVLineAux_escaped (v : List Char) : ∀ acc,
    parseCSVLineAux (escapeQuotes v ++ ['"']) true acc = [jsTrim (acc ++ v)] := by
  induction v with
  | nil =>
    intro acc
    simp only [escapeQuotes, List.nil_append, List.append_nil]
    exact parseCSVLineAux_close acc
  | cons c r ih =>
    intro acc
    by_cases hc : c = '"'
    · subst hc
      have he : escapeQuotes ('"' :: r) = '"' :: '"' :: escapeQuotes r := rfl
      rw [he, List.cons_append, List.cons_append, parseCSVLineAux_quote_quote, ih]
      simp
    · simp only [escapeQuotes, if_neg hc, List.cons_append]
      rw [parseCSVLineAux_other c hc, ih]
      simp

/-- C7 as stated is false: the tokenizer trims every field, so a field with
leading or trailing whitespace does not survive the round-trip verbatim.
`"a, "` (comma and trailing blank) encodes to `"\"a, \""` and re-tokenizes
to `"a,"`. -/
theorem c7_counterexample :
    parseCSVLine (csvEncode ("a, ".data)) ≠ ["a, ".data] := by
  with_unfolding_all decide

/-- C7 (amended): encoding any field value with the reference writer and
re-tokenizing yields exactly the trimmed original field value (hence the
original itself whenever it has no leading/trailing whitespace), in
particular for fields containing commas or embedded doubled quotes. -/
theorem c7_tokenizer_roundtrip_trimmed (v : List Char) :
    parseCSVLine (csvEncode v) = [jsTrim v] := by
  unfold parseCSVLine csvEncode
  rw [parseCSVLineAux_openQuote, parseCSVLineAux_escaped]
  simp

/-! ### C8: non-negative amounts everywhere -/

theorem processRow_amount_nonneg (dIdx aIdx dsIdx tIdx now : Int) (line : List Char)
    (t : ParsedTransaction) (z : Int)
    (h : processRow dIdx aIdx dsIdx tIdx now line = some (t, z)) : 0 ≤ t.amount := by
  unfold processRow at h
  split at h
  · exact absurd h (by simp)
  · split at h
    · exact absurd h (by simp)
    · split at h
      · exact absurd h (by simp)
      · split at h
        · exact absurd h (by simp)
        · split at h
          · simp only [Option.some.injEq, Prod.mk.injEq] at h
            obtain ⟨ht, -⟩ := h
            subst ht
            exact abs_nonneg _
          · split at h
            · exact absurd h (by simp)
            · simp only [Option.some.injEq, Prod.mk.injEq] at h
              obtain ⟨ht, -⟩ := h
              subst ht
              exact abs_nonneg _

theorem mapAdd_nonneg (k : List Char) (v : ℚ) (hv : 0 ≤ v) :
    ∀ m : List (List Char × ℚ), (∀ p ∈ m, 0 ≤ p.2) →
      ∀ p ∈ mapAdd m k v, 0 ≤ p.2 := by
  intro m
  induction m with
  | nil =>
    intro _ p hp
    simp only [mapAdd, List.mem_singleton] at hp
    subst hp
    exact hv
  | cons q rest ih =>
    intro hm p hp
    obtain ⟨k', v'⟩ := q
    simp only [mapAdd] at hp
    split at hp
    · rcases List.mem_cons.mp hp with hh | hh
      · subst hh; exact add_nonneg (hm (k', v') (by simp)) hv
      · exact hm p (by simp [hh])
    · rcases List.mem_cons.mp hp with hh | hh
      · subst hh; exact hm (k', v') (by simp)
      · exact ih (fun r hr => hm r (by simp [hr])) p hh

theorem weeklyAdd_nonneg (k : List Char) (st0 : Int) (v : ℚ) (hv : 0 ≤ v) :
    ∀ m : List (List Char × ℚ × Int), (∀ p ∈ m, 0 ≤ p.2.1) →
      ∀ p ∈ weeklyAdd m k st0 v, 0 ≤ p.2.1 := by
  intro m
  induction m with
  | nil =>
    intro _ p hp
    simp only [weeklyAdd, List.mem_singleton] at hp
    subst hp
    exact hv
  | cons q rest ih =>
    intro hm p hp
    obtain ⟨k', v', s'⟩ := q
    simp only [weeklyAdd] at hp
    split at hp
    · rcases List.mem_cons.mp hp with hh | hh
      · subst hh; exact add_nonneg (hm (k', v', s') (by simp)) hv
      · exact hm p (by simp [hh])
    · rcases List.mem_cons.mp hp with hh | hh
      · subst hh; exact hm (k', v', s') (by simp)
      · exact ih (fun r hr => hm r (by simp [hr])) p hh

theorem stepRow_nonneg (dIdx aIdx dsIdx tIdx now : Int) (s : ParseState) (line : List Char)
    (h : stNonNeg s) : stNonNeg (stepRow dIdx aIdx dsIdx tIdx now s line) := by
  unfold stepRow
  cases hp : processRow dIdx aIdx dsIdx tIdx now line with
  | none => exact h
  | some tz =>
    obtain ⟨t, z⟩ := tz
    have hamt : 0 ≤ t.amount := processRow_amount_nonneg dIdx aIdx dsIdx tIdx now line t z hp
    obtain ⟨h1, h2, h3, h4⟩ := h
    refine ⟨?_, ?_, ?_, ?_⟩
    · intro u hu
      rcases List.mem_append.mp hu with hh | hh
      · exact h1 u hh
      · simp only [List.mem_singleton] at hh; subst hh; exact hamt
    · exact mapAdd_nonneg _ _ hamt _ h2
    · exact mapAdd_nonneg _ _ hamt _ h3
    · exact weeklyAdd_nonneg _ _ _ hamt _ h4

theorem runRows_nonneg (dIdx aIdx dsIdx tIdx now : Int) (rows : List (List Char)) :
    stNonNeg (runRows dIdx aIdx dsIdx tIdx now rows) := by
  have hgen : ∀ (l : List (List Char)) (s : ParseState), stNonNeg s →
      stNonNeg (l.foldl (stepRow dIdx aIdx dsIdx tIdx now) s) := by
    intro l
    induction l with
    | nil => exact fun s hs => hs
    | cons r rs ih =>
      exact fun s hs => ih _ (stepRow_nonneg dIdx aIdx dsIdx tIdx now s r hs)
  exact hgen rows initState
    ⟨by simp [initState], by simp [initState], by simp [initState], by simp [initState]⟩

theorem mem_insertLe {α : Type} (le : α → α → Bool) (x y : α) :
    ∀ l : List α, y ∈ insertLe le x l → y = x ∨ y ∈ l := by
  intro l
  induction l with
  | nil => intro hy; simpa [insertLe] using hy
  | cons z zs ih =>
    intro hy
    simp only [insertLe] at hy
    split at hy
    · rcases List.mem_cons.mp hy with hh | hh
      · exact Or.inl hh
      · exact Or.inr hh
    · rcases List.mem_cons.mp hy with hh | hh
      · exact Or.inr (by simp [hh])
      · rcases ih hh with hh2 | hh2
        · exact Or.inl hh2
        · exact Or.inr (by simp [hh2])

theorem mem_sortByLe {α : Type} (le : α → α → Bool) (y : α) :
    ∀ l : List α, y ∈ sortByLe le l → y ∈ l := by
  intro l
  induction l with
  | nil => intro hy; simp [sortByLe] at hy
  | cons z zs ih =>
    intro hy
    rw [sortByLe] at hy
    rcases mem_insertLe le z y _ hy with hh | hh
    · simp [hh]
    · simp [ih hh]

theorem sumBy_nonneg {α : Type} (f : α → ℚ) :
    ∀ l : List α, (∀ x ∈ l, 0 ≤ f x) → 0 ≤ sumBy f l := by
  intro l
  induction l with
  | nil => intro _; simp [sumBy]
  | cons x xs ih =>
    intro hl
    rw [sumBy_cons]
    exact add_nonneg (hl x (by simp)) (ih fun a ha => hl a (by simp [ha]))

theorem jsRound_eq_floor (x : ℚ) : jsRound x = ⌊x + 1 / 2⌋ := by
  rw [jsRound, Rat.floor_def', Rat.floor_def]

theorem round2_nonneg (x : ℚ) (hx : 0 ≤ x) : 0 ≤ round2 x := by
  rw [round2, jsRound_eq_floor]
  apply div_nonneg _ (by norm_num)
  have h : (0 : Int) ≤ ⌊x * 100 + 1 / 2⌋ := Int.le_floor.mpr (by push_cast; linarith)
  exact_mod_cast h

/-- C8: every transaction amount in the result is non-negative (the absolute
value is taken regardless of the source sign), hence every bucket entry and
the grand total are non-negative, and the running total never decreases
during accumulation. -/
theorem c8_amounts_nonneg (now : Int) (s : List Char) :
    (∀ t ∈ (parseCSV now s).transactions, 0 ≤ t.amount) ∧
    (∀ e ∈ (parseCSV now s).monthlySpending, 0 ≤ e.spending) ∧
    (∀ e ∈ (parseCSV now s).dailySpending, 0 ≤ e.spending) ∧
    (∀ e ∈ (parseCSV now s).weeklySpending, 0 ≤ e.spending) ∧
    0 ≤ (parseCSV now s).totalSpending ∧
    (∀ dIdx aIdx dsIdx tIdx now2 : Int, ∀ st : ParseState, ∀ line : List Char,
      st.total ≤ (stepRow dIdx aIdx dsIdx tIdx now2 st line).total) := by
  have hstep : ∀ dIdx aIdx dsIdx tIdx now2 : Int, ∀ st : ParseState, ∀ line : List Char,
      st.total ≤ (stepRow dIdx aIdx dsIdx tIdx now2 st line).total := by
    intro dIdx aIdx dsIdx tIdx now2 st line
    unfold stepRow
    cases hp : processRow dIdx aIdx dsIdx tIdx now2 line with
    | none => exact le_refl _
    | some tz =>
      obtain ⟨t, z⟩ := tz
      have hamt := processRow_amount_nonneg dIdx aIdx dsIdx tIdx now2 line t z hp
      simp only
      linarith
  unfold parseCSV
  split
  · exact ⟨by simp [emptyResult], by simp [emptyResult], by simp [emptyResult],
      by simp [emptyResult], le_refl 0, hstep⟩
  · split
    · exact ⟨by simp [emptyResult], by simp [emptyResult], by simp [emptyResult],
        by simp [emptyResult], le_refl 0, hstep⟩
    · have hnn := runRows_nonneg (docDateIdx s) (docAmountIdx s) (docDescIdx s)
        (docTypeIdx s) now ((csvLines s).drop 1)
      have hinv := runRows_inv (docDateIdx s) (docAmountIdx s) (docDescIdx s)
        (docTypeIdx s) now ((csvLines s).drop 1)
      obtain ⟨hn1, hn2, hn3, hn4⟩ := hnn
      refine ⟨?_, ?_, ?_, ?_, ?_, hstep⟩
      · exact fun t ht => hn1 t ht
      · intro e he
        simp only [assemble] at he
        have hmem := mem_sortByLe _ e _ he
        obtain ⟨p, hp, hpe⟩ := List.mem_map.mp hmem
        rw [← hpe]
        exact hn2 p hp
      · intro e he
        simp only [assemble] at he
        obtain ⟨p, hp, hpe⟩ := List.mem_map.mp he
        rw [← hpe]
        exact hn3 p (mem_sortByLe _ p _ hp)
      · intro e he
        simp only [assemble] at he
        obtain ⟨p, hp, hpe⟩ := List.mem_map.mp he
        rw [← hpe]
        exact hn4 p (mem_sortByLe _ p _ hp)
      · simp only [assemble]
        apply round2_nonneg
        rw [← hinv.1]
        exact sumBy_nonneg _ _ hn1

theorem c8_witness :
    (⟨"2024-01-05".data, [], (9 : ℚ) / 2⟩ : ParsedTransaction) ∈
      (parseCSV 0 ("Date,Amount\n2024-01-05,-4.50".data)).transactions ∧
    (0 : ℚ) ≤ (⟨"2024-01-05".data, [], (9 : ℚ) / 2⟩ : ParsedTransaction).amount :=
  ⟨by with_unfolding_all decide,
   (c8_amounts_nonneg 0 ("Date,Amount\n2024-01-05,-4.50".data)).1 _
     (by with_unfolding_all decide)⟩

/-! ### C9: weekly bucketing onto the preceding Monday -/

/-- C9: the week-start function lands on the Monday on or before the given
day (a Sunday is shifted back 6 days), and on the concrete two-row input of
Scenario E — 2024-03-04 (Monday) and 2024-03-10 (Sunday) — `parseCSV`
produces a single weekly bucket whose internal key is `2024-03-04` and
whose label covers Mar 4 – 10. -/
theorem c9_week_start_monday :
    (∀ z : Int, jsGetDay (getWeekStart z) = 1 ∧ getWeekStart z ≤ z ∧
      z - getWeekStart z < 7 ∧ (jsGetDay z = 0 → getWeekStart z = z - 6)) ∧
    (parseCSV 0 ("Date,Description,Amount\n2024-03-04,A,10.00\n2024-03-10,B,5.00".data)).weeklySpending =
      [⟨"Mar 4 - 10".data, 15⟩] ∧
    (runRows
      (docDateIdx ("Date,Description,Amount\n2024-03-04,A,10.00\n2024-03-10,B,5.00".data))
      (docAmountIdx ("Date,Description,Amount\n2024-03-04,A,10.00\n2024-03-10,B,5.00".data))
      (docDescIdx ("Date,Description,Amount\n2024-03-04,A,10.00\n2024-03-10,B,5.00".data))
      (docTypeIdx ("Date,Description,Amount\n2024-03-04,A,10.00\n2024-03-10,B,5.00".data))
      0
      ((csvLines ("Date,Description,Amount\n2024-03-04,A,10.00\n2024-03-10,B,5.00".data)).drop 1)).weeklyMap =
      [("2024-03-04".data, 15, daysFromCivil 2024 3 4)] := by
  refine ⟨?_, ?_, ?_⟩
  · intro z
    have hws : getWeekStart z = z - jsGetDay z + (if jsGetDay z = 0 then -6 else 1) := by
      unfold getWeekStart jsSetDate
      ring
    have hd : jsGetDay z = (z + 4) % 7 := rfl
    have hw : jsGetDay (getWeekStart z) = (getWeekStart z + 4) % 7 := rfl
    by_cases h0 : jsGetDay z = 0
    · rw [if_pos h0] at hws
      refine ⟨?_, ?_, ?_, fun _ => ?_⟩ <;> omega
    · rw [if_neg h0] at hws
      refine ⟨?_, ?_, ?_, fun hc => absurd hc h0⟩ <;> omega
  · with_unfolding_all decide
  · with_unfolding_all decide

theorem c9_witness : jsGetDay 3 = 0 ∧ getWeekStart 3 = 3 - 6 :=
  ⟨by decide, (c9_week_start_monday.1 3).2.2.2 (by decide)⟩

/-! ### C10: determinism when every surviving row is dated -/

theorem processRow_now_indep (dIdx aIdx dsIdx tIdx now1 now2 : Int) (line : List Char)
    (hd : rowPassesPreDate dIdx aIdx tIdx line = true →
      (rowDateStr dIdx line).isEmpty = false) :
    processRow dIdx aIdx dsIdx tIdx now1 line = processRow dIdx aIdx dsIdx tIdx now2 line := by
  unfold processRow
  by_cases h1 : (jsTrim line).isEmpty
  · rw [if_pos h1, if_pos h1]
  rw [if_neg h1, if_neg h1]
  by_cases h2 : ((rowFields line).length : Int) ≤ max dIdx aIdx
  · rw [if_pos h2, if_pos h2]
  rw [if_neg h2, if_neg h2]
  cases hA : rowAmount aIdx line with
  | none => rfl
  | some a =>
    dsimp only
    by_cases h3 : 0 ≤ tIdx ∧ rowTypeStr tIdx line ≠ "debit".data
    · rw [if_pos h3, if_pos h3]
    · rw [if_neg h3, if_neg h3]
      have hpass : rowPassesPreDate dIdx aIdx tIdx line = true := by
        simp only [rowPassesPreDate, Bool.and_eq_true, Bool.or_eq_true, decide_eq_true_eq,
          Bool.not_eq_true', beq_iff_eq]
        refine ⟨⟨⟨by simpa using h1, not_le.mp h2⟩, by rw [hA]; rfl⟩, ?_⟩
        rcases not_and_or.mp h3 with hh | hh
        · exact Or.inl (by omega)
        · exact Or.inr (not_not.mp hh)
      have hdd := hd hpass
      simp [hdd]

theorem foldl_stepRow_now_indep (dIdx aIdx dsIdx tIdx now1 now2 : Int) :
    ∀ rows : List (List Char),
      (∀ line ∈ rows, rowPassesPreDate dIdx aIdx tIdx line = true →
        (rowDateStr dIdx line).isEmpty = false) →
      ∀ st : ParseState,
        rows.foldl (stepRow dIdx aIdx dsIdx tIdx now1) st =
          rows.foldl (stepRow dIdx aIdx dsIdx tIdx now2) st := by
  intro rows
  induction rows with
  | nil => intro _ st; rfl
  | cons r rs ih =>
    intro h st
    have hr : stepRow dIdx aIdx dsIdx tIdx now1 st r = stepRow dIdx aIdx dsIdx tIdx now2 st r := by
      unfold stepRow
      rw [processRow_now_indep dIdx aIdx dsIdx tIdx now1 now2 r (h r (by simp))]
    simp only [List.foldl_cons, hr]
    exact ih (fun l hl => h l (by simp [hl])) _

/-- C10: when every data row that passes the field-count, amount and type
checks has a non-empty date field, the parse result does not depend on the
current time — the `new Date()` fallback is only reachable from a surviving
row with an empty date field. -/
theorem c10_deterministic (s : List Char) (now1 now2 : Int)
    (h : ∀ line ∈ (csvLines s).drop 1,
      rowPassesPreDate (docDateIdx s) (docAmountIdx s) (docTypeIdx s) line = true →
      (rowDateStr (docDateIdx s) line).isEmpty = false) :
    parseCSV now1 s = parseCSV now2 s := by
  unfold parseCSV
  split
  · rfl
  · split
    · rfl
    · unfold runRows
      rw [foldl_stepRow_now_indep (docDateIdx s) (docAmountIdx s) (docDescIdx s)
        (docTypeIdx s) now1 now2 ((csvLines s).drop 1) h initState]

theorem c10_witness :
    parseCSV 5 ("Date,Amount\n2024-01-05,1.00".data) =
      parseCSV 99 ("Date,Amount\n2024-01-05,1.00".data) :=
  c10_deterministic ("Date,Amount\n2024-01-05,1.00".data) 5 99
    (by with_unfolding_all decide)

end Finalyze
